import Mathlib

/-!
Verification of the build-aggregate persistence layer of the BG3 Companion
backend. The definitions below are shallow embeddings of the functions in
src/backend/app/main.py and src/backend/app/database.py. Machine strings are
Lean strings; SQLite tables are Lean lists of row structures; one HTTP handler
becomes one Lean function from the database state (plus the parsed payload)
to the new state and a result.

The snapshot of src/backend/app/schemas.py predates several response-model
fields and classes that main.py and the test suite use (BuildBase.skill_choices,
BuildLevelBase.note, Spell.school, and the Background, Feat, Ability and
ClassSpellList models referenced by route decorators). Wherever a payload or
response field is needed that is absent from that snapshot, the field is
modelled from the spec (section 6 wire shape) and from its uses in main.py;
such definitions carry a doc comment starting with: Modelled from the spec.
-/

namespace BG3

/-- Whitespace characters removed by the Python str.strip call in
_normalize_skill_choices. The Unicode whitespace set of Python is modelled by
its ASCII part, which is the alphabet the skill-choice data ranges over. -/
def isPyWs (c : Char) : Bool :=
  c = ' ' || c = '\t' || c = '\n' || c = '\x0b' || c = '\x0c' || c = '\r'

/-- Python str.strip(): drop leading and trailing whitespace. -/
def pyStrip (s : String) : String :=
  ⟨((s.data.dropWhile isPyWs).reverse.dropWhile isPyWs).reverse⟩

/-- Python str.casefold(), modelled as the character-wise lowercase map
(full Unicode case folding agrees with this on the ASCII range). -/
def pyCasefold (s : String) : String :=
  ⟨s.data.map Char.toLower⟩

/-- The loop body of _normalize_skill_choices (main.py lines 53-65): walk the
choices, strip each, drop empties, and keep an entry only when its casefolded
key has not been seen yet. The Python set of seen keys is a Lean list. -/
def normGo (seen : List String) : List String → List String
  | [] => []
  | choice :: rest =>
    let text := pyStrip choice
    if text = "" then normGo seen rest
    else
      let key := pyCasefold text
      if key ∈ seen then normGo seen rest
      else text :: normGo (key :: seen) rest

/-- main.py _normalize_skill_choices. -/
def _normalize_skill_choices (choices : List String) : List String :=
  normGo [] choices

/-- The hexadecimal digit characters produced by the json module when it
escapes a control character as a backslash-u sequence. -/
def hexDigitChar (n : Nat) : Char :=
  Char.ofNat (if n < 10 then 48 + n else 87 + n)

/-- How json.dumps (ensure_ascii=False) renders one character inside a JSON
string literal: quote, backslash and the named control characters get a
two-character escape, other control characters a backslash-u escape, and every
other character stands for itself. -/
def escChar (c : Char) : List Char :=
  if c = '"' then ['\\', '"']
  else if c = '\\' then ['\\', '\\']
  else if c = '\n' then ['\\', 'n']
  else if c = '\r' then ['\\', 'r']
  else if c = '\t' then ['\\', 't']
  else if c = '\x08' then ['\\', 'b']
  else if c = '\x0c' then ['\\', 'f']
  else if c.toNat < 32 then
    ['\\', 'u', '0', '0', hexDigitChar (c.toNat / 16), hexDigitChar (c.toNat % 16)]
  else [c]

/-- json.dumps rendering of the body of a string literal. -/
def escStr : List Char → List Char
  | [] => []
  | c :: cs => escChar c ++ escStr cs

/-- json.dumps rendering of a whole string literal, quotes included. -/
def quoteStr (s : String) : List Char :=
  '"' :: (escStr s.data ++ ['"'])

/-- json.dumps rendering of the second and later list items, each preceded by
the default item separator (a comma and a space). -/
def dumpsTail : List String → List Char
  | [] => []
  | x :: xs => ',' :: ' ' :: (quoteStr x ++ dumpsTail xs)

/-- json.dumps(list_of_strings, ensure_ascii=False). -/
def dumpsList (l : List String) : String :=
  match l with
  | [] => "[]"
  | x :: xs => ⟨'[' :: ((quoteStr x ++ dumpsTail xs) ++ [']'])⟩

/-- main.py _serialize_skill_choices: normalize, then store as JSON text. -/
def _serialize_skill_choices (choices : List String) : String :=
  dumpsList (_normalize_skill_choices choices)

/-- Value of a hexadecimal digit character, as json.loads reads it. -/
def hexVal (c : Char) : Option Nat :=
  if '0' ≤ c ∧ c ≤ '9' then some (c.toNat - 48)
  else if 'a' ≤ c ∧ c ≤ 'f' then some (c.toNat - 87)
  else if 'A' ≤ c ∧ c ≤ 'F' then some (c.toNat - 55)
  else none

/-- The simple backslash escapes accepted by json.loads. -/
def unescSimple (e : Char) : Option Char :=
  if e = '"' then some '"'
  else if e = '\\' then some '\\'
  else if e = '/' then some '/'
  else if e = 'b' then some '\x08'
  else if e = 'f' then some '\x0c'
  else if e = 'n' then some '\n'
  else if e = 'r' then some '\r'
  else if e = 't' then some '\t'
  else none

/-- json.loads reading of a string literal body (the opening quote already
consumed): returns the decoded characters and the rest of the input. Raw
control characters are rejected, as in the strict mode of json.loads. -/
def parseJStr : List Char → Option (List Char × List Char)
  | [] => none
  | c :: cs =>
    if c = '"' then some ([], cs)
    else if c = '\\' then
      match cs with
      | [] => none
      | e :: cs2 =>
        if e = 'u' then
          match cs2 with
          | d1 :: d2 :: d3 :: d4 :: cs3 =>
            match hexVal d1, hexVal d2, hexVal d3, hexVal d4 with
            | some a, some b, some x, some y =>
              (parseJStr cs3).map
                (fun p => (Char.ofNat (((a * 16 + b) * 16 + x) * 16 + y) :: p.1, p.2))
            | _, _, _, _ => none
          | _ => none
        else
          match unescSimple e with
          | some u => (parseJStr cs2).map (fun p => (u :: p.1, p.2))
          | none => none
    else if c.toNat < 32 then none
    else (parseJStr cs).map (fun p => (c :: p.1, p.2))

/-- Spaces between a comma and the next item (json.dumps emits exactly one). -/
def skipSp : List Char → List Char :=
  List.dropWhile (fun c => c = ' ')

/-- One string token: an opening quote followed by a literal body. -/
def parseStrTok (cs : List Char) : Option (String × List Char) :=
  match cs with
  | [] => none
  | c :: cs2 => if c = '"' then (parseJStr cs2).map (fun p => (⟨p.1⟩, p.2)) else none

/-- json.loads reading of the items of a non-empty JSON array of strings; the
fuel argument bounds the number of items and is in practice the input length. -/
def parseItemsAux : Nat → List Char → Option (List String)
  | 0, _ => none
  | n + 1, cs =>
    match parseStrTok cs with
    | none => none
    | some (s, rest) =>
      match rest with
      | [] => none
      | c :: rest2 =>
        if c = ']' then (if rest2 = [] then some [s] else none)
        else if c = ',' then (parseItemsAux n (skipSp rest2)).map (fun l => s :: l)
        else none

/-- json.loads restricted to JSON arrays of strings, which is exactly the image
of _serialize_skill_choices. Inputs outside this sublanguage are mapped to
none; for them the Python code either falls back to comma splitting (malformed
JSON) or returns the empty list (well-formed JSON that is not a string list),
and no stored skill-choice value, all of which the serializer wrote, is of
either kind. -/
def parseStrList (v : String) : Option (List String) :=
  match v.data with
  | [] => none
  | c :: cs2 =>
    if c = '[' then
      match cs2 with
      | [] => none
      | c2 :: cs3 =>
        if c2 = ']' then (if cs3 = [] then some [] else none)
        else parseItemsAux (cs3.length + 1) (c2 :: cs3)
    else none

/-- Python str.split on a comma, the fallback of _deserialize_skill_choices. -/
def pySplitComma (s : String) : List String :=
  s.splitOn ","

/-- main.py _deserialize_skill_choices for a TEXT column value: a missing or
empty value yields the empty list, a JSON list of strings is normalized, and
text that fails to parse is split on commas and normalized. -/
def _deserialize_skill_choices : Option String → List String
  | none => []
  | some v =>
    if v = "" then []
    else
      match parseStrList v with
      | some data => _normalize_skill_choices data
      | none => _normalize_skill_choices (pySplitComma v)

/-- An HTTP error as raised through HTTPException: a status code and the
detail string of the JSON body. -/
structure HErr where
  status : Nat
  detail : String
deriving DecidableEq, Repr

/-- database.py _ensure_companion_schema, acting on the observable schema
state of the build_levels table: none when the table does not exist, otherwise
the list of its column names. Returns the new state together with whether an
ALTER TABLE statement was issued. The PRAGMA table_info inspection is the
match, the early return on a missing table is the none branch, and the ALTER
TABLE ADD COLUMN note appends the new column. -/
def _ensure_companion_schema (cols : Option (List String)) :
    Option (List String) × Bool :=
  match cols with
  | none => (cols, false)
  | some cs =>
    if "note" ∈ cs then (some cs, false)
    else (some (cs ++ ["note"]), true)

/-- main.py SPELL_SCHOOL_KEYWORDS: the fixed keyword-to-canonical-name table,
in source order. -/
def SPELL_SCHOOL_KEYWORDS : List (String × String) :=
  [("abjuration", "Abjuration"),
   ("conjuration", "Conjuration"),
   ("divination", "Divination"),
   ("enchantment", "Enchantment"),
   ("evocation", "Evocation"),
   ("illusion", "Illusion"),
   ("necromancy", "Necromancy"),
   ("transmutation", "Transmutation")]

/-- A word character in the sense of the backslash-b boundary of the compiled
patterns (alphanumeric or underscore; the keywords and the relevant data are
ASCII). -/
def isWordChar (c : Char) : Bool :=
  c.isAlphanum || c = '_'

/-- Case-insensitive match of the keyword against the start of the input,
returning the remaining input on success (the keywords are lowercase, so the
IGNORECASE flag is modelled by lowercasing the scanned character). -/
def ciDropKw : List Char → List Char → Option (List Char)
  | [], rest => some rest
  | _ :: _, [] => none
  | k :: ks, c :: cs => if c.toLower = k then ciDropKw ks cs else none

/-- Scan of re.search for a whole-word occurrence: at each position, the
keyword must match and both ends must lie on a word boundary. The prev flag
records whether the previous character was a word character. -/
def wwSearchAux (kw : List Char) : Bool → List Char → Bool
  | _, [] => false
  | prev, c :: cs =>
    (!prev &&
      (match ciDropKw kw (c :: cs) with
       | none => false
       | some [] => true
       | some (r :: _) => !isWordChar r)) ||
    wwSearchAux kw (isWordChar c) cs

/-- Whole-word, case-insensitive containment: the search performed by one
compiled pattern of SPELL_SCHOOL_PATTERNS. -/
def containsWholeWordCI (d kw : String) : Bool :=
  wwSearchAux kw.data false d.data

/-- The loop of _infer_spell_school over SPELL_SCHOOL_PATTERNS: the first
pattern that matches wins. -/
def findSchool : List (String × String) → String → Option String
  | [], _ => none
  | (kw, canonical) :: rest, d =>
    if containsWholeWordCI d kw then some canonical else findSchool rest d

/-- main.py _infer_spell_school: a missing or empty description yields none,
otherwise the first matching school keyword in table order decides. -/
def _infer_spell_school : Option String → Option String
  | none => none
  | some d => if d = "" then none else findSchool SPELL_SCHOOL_KEYWORDS d

/-- A dynamically typed SQLite column value, as stored in the companion
database tables. -/
inductive SqlVal where
  | null : SqlVal
  | text : String → SqlVal
  | int : Int → SqlVal
deriving DecidableEq, Repr

/-- A row of the items table (loot). Column values keep the dynamic SQLite
typing. -/
structure ItemRow where
  id : Nat
  name : SqlVal
  type : SqlVal
  region : SqlVal
  description : SqlVal
  is_collected : SqlVal
deriving DecidableEq, Repr

/-- One optional field of a partial-update payload: either absent from the
request or explicitly supplied (possibly as null). Mirrors the exclude_unset
semantics of the pydantic model dump. -/
inductive FieldUpd (α : Type) where
  | unset : FieldUpd α
  | given : α → FieldUpd α
deriving DecidableEq, Repr

/-- schemas.py LootItemUpdate: every field optional, with presence tracked. -/
structure LootItemUpdate where
  name : FieldUpd (Option String)
  type : FieldUpd (Option String)
  region : FieldUpd (Option String)
  description : FieldUpd (Option String)
  is_collected : FieldUpd (Option Bool)
deriving DecidableEq, Repr

/-- A supplied optional text value as it is bound into the SQL statement. -/
def toSqlText : Option String → SqlVal
  | none => SqlVal.null
  | some s => SqlVal.text s

/-- payload.model_dump(exclude_unset=True) for a loot update, followed by the
int coercion of a supplied non-null is_collected (main.py lines 184-186):
the list of column-value pairs of the generated UPDATE statement, in field
declaration order. -/
def lootUpdates (p : LootItemUpdate) : List (String × SqlVal) :=
  (match p.name with | .unset => [] | .given v => [("name", toSqlText v)]) ++
  (match p.type with | .unset => [] | .given v => [("type", toSqlText v)]) ++
  (match p.region with | .unset => [] | .given v => [("region", toSqlText v)]) ++
  (match p.description with | .unset => [] | .given v => [("description", toSqlText v)]) ++
  (match p.is_collected with
   | .unset => []
   | .given none => [("is_collected", SqlVal.null)]
   | .given (some b) => [("is_collected", SqlVal.int (if b then 1 else 0))])

/-- SET clause application: assign one column of an items row. -/
def setItemCol (r : ItemRow) (kv : String × SqlVal) : ItemRow :=
  if kv.1 = "name" then { r with name := kv.2 }
  else if kv.1 = "type" then { r with type := kv.2 }
  else if kv.1 = "region" then { r with region := kv.2 }
  else if kv.1 = "description" then { r with description := kv.2 }
  else if kv.1 = "is_collected" then { r with is_collected := kv.2 }
  else r

/-- main.py update_loot_item: check existence (404 when absent), build the
sparse update list, run the UPDATE only when it is non-empty, and re-fetch the
row. The failure-free storage path is modelled. -/
def update_loot_item (db : List ItemRow) (item_id : Nat) (p : LootItemUpdate) :
    List ItemRow × Except HErr ItemRow :=
  match db.find? (fun r => r.id == item_id) with
  | none => (db, Except.error ⟨404, "Loot item not found"⟩)
  | some _ =>
    let updates := lootUpdates p
    let db2 :=
      if updates.isEmpty then db
      else db.map (fun r => if r.id == item_id then updates.foldl setItemCol r else r)
    match db2.find? (fun r => r.id == item_id) with
    | none => (db2, Except.error ⟨404, "Loot item not found"⟩)
    | some row => (db2, Except.ok row)

/-- A row of the enemies table. -/
structure EnemyRow where
  id : Nat
  name : SqlVal
  stats : SqlVal
  resistances : SqlVal
  weaknesses : SqlVal
  abilities : SqlVal
  notes : SqlVal
deriving DecidableEq, Repr

/-- schemas.py EnemyUpdate: every field optional, with presence tracked. -/
structure EnemyUpdate where
  name : FieldUpd (Option String)
  stats : FieldUpd (Option String)
  resistances : FieldUpd (Option String)
  weaknesses : FieldUpd (Option String)
  abilities : FieldUpd (Option String)
  notes : FieldUpd (Option String)
deriving DecidableEq, Repr

/-- payload.model_dump(exclude_unset=True) for an enemy update. -/
def enemyUpdates (p : EnemyUpdate) : List (String × SqlVal) :=
  (match p.name with | .unset => [] | .given v => [("name", toSqlText v)]) ++
  (match p.stats with | .unset => [] | .given v => [("stats", toSqlText v)]) ++
  (match p.resistances with | .unset => [] | .given v => [("resistances", toSqlText v)]) ++
  (match p.weaknesses with | .unset => [] | .given v => [("weaknesses", toSqlText v)]) ++
  (match p.abilities with | .unset => [] | .given v => [("abilities", toSqlText v)]) ++
  (match p.notes with | .unset => [] | .given v => [("notes", toSqlText v)])

/-- SET clause application: assign one column of an enemies row. -/
def setEnemyCol (r : EnemyRow) (kv : String × SqlVal) : EnemyRow :=
  if kv.1 = "name" then { r with name := kv.2 }
  else if kv.1 = "stats" then { r with stats := kv.2 }
  else if kv.1 = "resistances" then { r with resistances := kv.2 }
  else if kv.1 = "weaknesses" then { r with weaknesses := kv.2 }
  else if kv.1 = "abilities" then { r with abilities := kv.2 }
  else if kv.1 = "notes" then { r with notes := kv.2 }
  else r

/-- main.py update_enemy, same shape as update_loot_item. -/
def update_enemy (db : List EnemyRow) (enemy_id : Nat) (p : EnemyUpdate) :
    List EnemyRow × Except HErr EnemyRow :=
  match db.find? (fun r => r.id == enemy_id) with
  | none => (db, Except.error ⟨404, "Enemy not found"⟩)
  | some _ =>
    let updates := enemyUpdates p
    let db2 :=
      if updates.isEmpty then db
      else db.map (fun r => if r.id == enemy_id then updates.foldl setEnemyCol r else r)
    match db2.find? (fun r => r.id == enemy_id) with
    | none => (db2, Except.error ⟨404, "Enemy not found"⟩)
    | some row => (db2, Except.ok row)

/-- A row of the builds table (conftest schema: id, name, race, class,
subclass, notes, skill_choices). The class column is carried under the Python
attribute name class_name, exactly as schemas.py aliases it. -/
structure BuildRow where
  id : Nat
  name : String
  race : Option String
  class_name : Option String
  subclass : Option String
  notes : Option String
  skill_choices : Option String
deriving DecidableEq, Repr

/-- A row of the build_levels table (id, build_id, level, spells, feats,
subclass_choice, multiclass_choice, note). -/
structure LevelRow where
  id : Nat
  build_id : Nat
  level : Int
  spells : Option String
  feats : Option String
  subclass_choice : Option String
  multiclass_choice : Option String
  note : Option String
deriving DecidableEq, Repr

/-- The companion database state relevant to the build aggregate: the two
tables plus the AUTOINCREMENT counters that produce fresh row ids. -/
structure CompanionDB where
  builds : List BuildRow
  build_levels : List LevelRow
  nextBuildId : Nat
  nextLevelId : Nat
deriving DecidableEq, Repr

/-- Freshness of the AUTOINCREMENT counters: every stored id is below the
next id the database will hand out. -/
def CompanionDB.WF (db : CompanionDB) : Prop :=
  (∀ r ∈ db.builds, r.id < db.nextBuildId) ∧
  (∀ r ∈ db.build_levels, r.build_id < db.nextBuildId) ∧
  (∀ r ∈ db.build_levels, r.id < db.nextLevelId) ∧
  0 < db.nextBuildId

/-- schemas.py BuildLevelCreate (level, spells, feats, subclass_choice,
multiclass_choice), plus the note field. Modelled from the spec: the note
field of the level payload is part of the wire shape of section 6 and is read
by create_build and update_build in main.py, but the schemas.py snapshot
predates it. -/
structure BuildLevelCreate where
  level : Int
  spells : Option String
  feats : Option String
  subclass_choice : Option String
  multiclass_choice : Option String
  note : Option String
deriving DecidableEq, Repr

/-- schemas.py BuildCreate (name, race, class under the class_name attribute,
subclass, notes, levels), plus the skill-choice list. Modelled from the spec:
the skill_choices field is part of the wire shape of section 6 and is read by
create_build and update_build in main.py, but the schemas.py snapshot
predates it. -/
structure BuildCreate where
  name : String
  race : Option String
  class_name : Option String
  subclass : Option String
  notes : Option String
  skill_choices : List String
  levels : List BuildLevelCreate
deriving DecidableEq, Repr

/-- The BuildLevel response object as _load_build constructs it in main.py:
row fields with missing text normalized to the empty string. -/
structure BuildLevelOut where
  id : Nat
  level : Int
  spells : String
  feats : String
  subclass_choice : String
  multiclass_choice : String
  note : String
deriving DecidableEq, Repr

/-- The Build response object as _load_build constructs it in main.py. The
skill_choices and level note fields are those main.py passes; their place in
the response model is modelled from the spec (section 6 wire shape), the
schemas.py snapshot predating them. -/
structure BuildOut where
  id : Nat
  name : String
  race : Option String
  class_name : Option String
  subclass : Option String
  notes : Option String
  skill_choices : List String
  levels : List BuildLevelOut
deriving DecidableEq, Repr

/-- The Python idiom x or an empty string, applied to nullable text. -/
def orEmpty : Option String → String
  | none => ""
  | some s => s

/-- The comparison of the ORDER BY level clause. -/
def levelLe (a b : LevelRow) : Prop :=
  a.level ≤ b.level

instance : DecidableRel levelLe :=
  fun a b => Int.decLe a.level b.level

instance : IsTotal LevelRow levelLe :=
  ⟨fun a b => Int.le_total a.level b.level⟩

instance : IsTrans LevelRow levelLe :=
  ⟨fun _ _ _ h1 h2 => le_trans h1 h2⟩

/-- main.py _load_build: fetch the build row (404 when absent), fetch its
level rows ordered by level, and assemble the response aggregate. The ORDER BY
is modelled by a stable sort on the table order; SQLite fixes only the
level-ascending property used by the theorems. -/
def _load_build (db : CompanionDB) (build_id : Nat) : Except HErr BuildOut :=
  match db.builds.find? (fun r => r.id == build_id) with
  | none => Except.error ⟨404, "Build not found"⟩
  | some row =>
    let rows := List.insertionSort levelLe
      (db.build_levels.filter (fun r => r.build_id == build_id))
    Except.ok
      { id := row.id
        name := row.name
        race := row.race
        class_name := row.class_name
        subclass := row.subclass
        notes := row.notes
        skill_choices := _deserialize_skill_choices row.skill_choices
        levels := rows.map (fun r =>
          { id := r.id
            level := r.level
            spells := orEmpty r.spells
            feats := orEmpty r.feats
            subclass_choice := orEmpty r.subclass_choice
            multiclass_choice := orEmpty r.multiclass_choice
            note := orEmpty r.note }) }

/-- The level-insert loop shared by create_build and update_build: one INSERT
INTO build_levels per payload level, missing text normalized to the empty
string. The oracle fail says which executes raise sqlite3.Error; the first
failing insert aborts the loop with the exception, which the caller turns
into a rollback. The index i numbers the level inserts of one request. -/
def insertLevels (bid : Nat) (fail : Nat → Bool) :
    CompanionDB → List BuildLevelCreate → Nat → Option CompanionDB
  | db, [], _ => some db
  | db, lvl :: rest, i =>
    if fail i then none
    else
      insertLevels bid fail
        { db with
          build_levels := db.build_levels ++
            [{ id := db.nextLevelId
               build_id := bid
               level := lvl.level
               spells := some (orEmpty lvl.spells)
               feats := some (orEmpty lvl.feats)
               subclass_choice := some (orEmpty lvl.subclass_choice)
               multiclass_choice := some (orEmpty lvl.multiclass_choice)
               note := some (orEmpty lvl.note) }]
          nextLevelId := db.nextLevelId + 1 }
        rest (i + 1)

/-- main.py create_build: inside one connection-scoped transaction, INSERT the
build row, check the generated id, INSERT every level, then COMMIT and reload.
A sqlite error in the level loop (or a missing generated id) rolls the whole
transaction back, so the returned state is the entry state, and surfaces the
500 persistence error. The transaction is modelled by working on a copy that
is discarded on rollback. -/
def create_build (db : CompanionDB) (p : BuildCreate) (fail : Nat → Bool) :
    CompanionDB × Except HErr BuildOut :=
  let new_id := db.nextBuildId
  let db1 : CompanionDB :=
    { db with
      builds := db.builds ++
        [{ id := new_id
           name := p.name
           race := p.race
           class_name := p.class_name
           subclass := p.subclass
           notes := p.notes
           skill_choices := some (_serialize_skill_choices p.skill_choices) }]
      nextBuildId := new_id + 1 }
  if new_id = 0 then (db, Except.error ⟨500, "Failed to create build"⟩)
  else
    match insertLevels new_id fail db1 p.levels 0 with
    | none => (db, Except.error ⟨500, "Failed to create build"⟩)
    | some db2 => (db2, _load_build db2 new_id)

/-- main.py update_build: inside one transaction, check existence first (404
before any mutation), UPDATE the scalar columns and the serialized skill
choices, DELETE every existing level row, INSERT the new level set, COMMIT and
reload. Any sqlite error rolls back to the entry state with the 500
persistence error. -/
def update_build (db : CompanionDB) (build_id : Nat) (p : BuildCreate)
    (fail : Nat → Bool) : CompanionDB × Except HErr BuildOut :=
  match db.builds.find? (fun r => r.id == build_id) with
  | none => (db, Except.error ⟨404, "Build not found"⟩)
  | some _ =>
    let db1 : CompanionDB :=
      { db with
        builds := db.builds.map (fun r =>
          if r.id == build_id then
            { r with
              name := p.name
              race := p.race
              class_name := p.class_name
              subclass := p.subclass
              notes := p.notes
              skill_choices := some (_serialize_skill_choices p.skill_choices) }
          else r) }
    let db2 : CompanionDB :=
      { db1 with
        build_levels := db1.build_levels.filter (fun r => !(r.build_id == build_id)) }
    match insertLevels build_id fail db2 p.levels 0 with
    | none => (db, Except.error ⟨500, "Failed to update build"⟩)
    | some db3 => (db3, _load_build db3 build_id)

/-- main.py delete_build: DELETE FROM build_levels WHERE build_id, then DELETE
FROM builds WHERE id, two independent committed statements, then 204. The
failure-free storage path is modelled. -/
def delete_build (db : CompanionDB) (build_id : Nat) : CompanionDB × Nat :=
  let db1 : CompanionDB :=
    { db with build_levels := db.build_levels.filter (fun r => !(r.build_id == build_id)) }
  let db2 : CompanionDB :=
    { db1 with builds := db1.builds.filter (fun r => !(r.id == build_id)) }
  (db2, 204)
theorem hexVal_hexDigitChar (n : Nat) (h : n < 16) :
    hexVal (hexDigitChar n) = some n := by
  interval_cases n <;> decide

theorem parseJStr_escStr (s : List Char) :
    ∀ rest : List Char, parseJStr (escStr s ++ '"' :: rest) = some (s, rest) := by
  induction s with
  | nil =>
    intro rest
    rw [escStr, List.nil_append, parseJStr.eq_def]
    simp
  | cons c cs ih =>
    intro rest
    show parseJStr ((escChar c ++ escStr cs) ++ '"' :: rest) = _
    rw [List.append_assoc]
    unfold escChar
    split_ifs with h1 h2 h3 h4 h5 h6 h7 h8
    · subst h1
      simp only [List.cons_append, List.nil_append]
      rw [parseJStr.eq_def]
      simp [unescSimple, ih rest]
    · subst h2
      simp only [List.cons_append, List.nil_append]
      rw [parseJStr.eq_def]
      simp [unescSimple, ih rest]
    · subst h3
      simp only [List.cons_append, List.nil_append]
      rw [parseJStr.eq_def]
      simp [unescSimple, ih rest]
    · subst h4
      simp only [List.cons_append, List.nil_append]
      rw [parseJStr.eq_def]
      simp [unescSimple, ih rest]
    · subst h5
      simp only [List.cons_append, List.nil_append]
      rw [parseJStr.eq_def]
      simp [unescSimple, ih rest]
    · subst h6
      simp only [List.cons_append, List.nil_append]
      rw [parseJStr.eq_def]
      simp [unescSimple, ih rest]
    · subst h7
      simp only [List.cons_append, List.nil_append]
      rw [parseJStr.eq_def]
      simp [unescSimple, ih rest]
    · have hq : c.toNat / 16 < 16 := by omega
      have hr : c.toNat % 16 < 16 := by omega
      have h0 : hexVal '0' = some 0 := by decide
      simp only [List.cons_append, List.nil_append]
      rw [parseJStr.eq_def]
      simp [h0, hexVal_hexDigitChar _ hq, hexVal_hexDigitChar _ hr, ih rest]
      rw [show c.toNat / 16 * 16 + c.toNat % 16 = c.toNat by omega, Char.ofNat_toNat]
    · simp only [List.cons_append, List.nil_append]
      rw [parseJStr.eq_def]
      simp [h1, h2, h8, ih rest]


theorem quoteStr_append (y : String) (t : List Char) :
    quoteStr y ++ t = '"' :: (escStr y.data ++ '"' :: t) := by
  simp [quoteStr]

theorem dumpsTail_length_ge (xs : List String) : xs.length ≤ (dumpsTail xs).length := by
  induction xs with
  | nil => simp [dumpsTail]
  | cons x xs ih => simp [dumpsTail]; omega

theorem parseItemsAux_quote (xs : List String) :
    ∀ (x : String) (fuel : Nat), xs.length + 1 ≤ fuel →
      parseItemsAux fuel (quoteStr x ++ (dumpsTail xs ++ [']'])) = some (x :: xs) := by
  induction xs with
  | nil =>
    intro x fuel hf
    match fuel, hf with
    | n + 1, _ =>
      rw [quoteStr_append]
      simp [dumpsTail, parseItemsAux, parseStrTok, parseJStr_escStr x.data]
  | cons y ys ih =>
    intro x fuel hf
    match fuel, hf with
    | n + 1, hf =>
      have hn : ys.length + 1 ≤ n := by
        simp only [List.length_cons] at hf; omega
      rw [quoteStr_append]
      have hsk : skipSp (' ' :: (quoteStr y ++ (dumpsTail ys ++ [']']))) =
          quoteStr y ++ (dumpsTail ys ++ [']']) := by
        rw [quoteStr_append]
        simp [skipSp, List.dropWhile]
      simp [dumpsTail, parseItemsAux, parseStrTok, parseJStr_escStr x.data,
        List.append_assoc, hsk, ih y n hn]

theorem parseStrList_dumpsList (l : List String) : parseStrList (dumpsList l) = some l := by
  cases l with
  | nil => decide
  | cons x xs =>
    show parseStrList ⟨'[' :: ((quoteStr x ++ dumpsTail xs) ++ [']'])⟩ = _
    rw [parseStrList]
    have hshape : ('[' :: ((quoteStr x ++ dumpsTail xs) ++ [']']) : List Char) =
        '[' :: ('"' :: ((escStr x.data ++ ['"']) ++ (dumpsTail xs ++ [']']))) := by
      simp [quoteStr, List.append_assoc]
    have hlen : xs.length + 1 ≤ ((escStr x.data ++ ['"']) ++ (dumpsTail xs ++ [']'])).length + 1 := by
      have := dumpsTail_length_ge xs
      simp [List.length_append]
      omega
    have hrw := parseItemsAux_quote xs x
      (((escStr x.data ++ ['"']) ++ (dumpsTail xs ++ [']'])).length + 1) hlen
    rw [quoteStr_append] at hrw
    rw [quoteStr_append]
    simp
    convert hrw using 2
    simp [List.length_append]

theorem head_dropWhile_not (p : Char → Bool) :
    ∀ (l : List Char) (a : Char), (l.dropWhile p).head? = some a → p a = false := by
  intro l
  induction l with
  | nil => intro a h; simp [List.dropWhile] at h
  | cons c cs ih =>
    intro a h
    rw [List.dropWhile_cons] at h
    by_cases hc : p c = true
    · exact ih a (by simpa [hc] using h)
    · simp [hc] at h
      subst h
      simpa using hc

theorem dropWhile_eq_self_of_head (p : Char → Bool) (l : List Char)
    (h : ∀ a : Char, l.head? = some a → p a = false) : l.dropWhile p = l := by
  cases l with
  | nil => rfl
  | cons c cs =>
    rw [List.dropWhile_cons, if_neg]
    simp [h c rfl]

theorem exists_append_dropWhile (p : Char → Bool) :
    ∀ l : List Char, ∃ t, t ++ l.dropWhile p = l := by
  intro l
  induction l with
  | nil => exact ⟨[], rfl⟩
  | cons c cs ih =>
    by_cases hc : p c = true
    · obtain ⟨t, ht⟩ := ih
      exact ⟨c :: t, by simp [List.dropWhile_cons, hc, ht]⟩
    · exact ⟨[], by simp [List.dropWhile_cons, hc]⟩

theorem pyStrip_idem (s : String) : pyStrip (pyStrip s) = pyStrip s := by
  unfold pyStrip
  have hdata : ((⟨((s.data.dropWhile isPyWs).reverse.dropWhile isPyWs).reverse⟩ : String)).data =
      ((s.data.dropWhile isPyWs).reverse.dropWhile isPyWs).reverse := rfl
  rw [hdata]
  set d1 := s.data.dropWhile isPyWs with hd1
  set r := d1.reverse.dropWhile isPyWs with hr
  have step1 : r.reverse.dropWhile isPyWs = r.reverse := by
    apply dropWhile_eq_self_of_head
    intro a ha
    obtain ⟨t, ht⟩ := exists_append_dropWhile isPyWs d1.reverse
    have hd : r.reverse ++ t.reverse = d1 := by
      have := congrArg List.reverse ht
      simpa [List.reverse_append] using this
    cases hrev : r.reverse with
    | nil => rw [hrev] at ha; simp at ha
    | cons b bs =>
      rw [hrev] at ha
      have hab : a = b := by simpa using ha.symm
      subst hab
      have hh : d1.head? = some a := by
        rw [← hd, hrev]
        simp
      exact head_dropWhile_not isPyWs s.data a hh
  rw [step1]
  have step2 : r.reverse.reverse.dropWhile isPyWs = r.reverse.reverse := by
    rw [List.reverse_reverse]
    apply dropWhile_eq_self_of_head
    intro a ha
    exact head_dropWhile_not isPyWs d1.reverse a (by rw [← hr]; exact ha)
  rw [step2, List.reverse_reverse]

theorem String_ne_empty_data (s : String) (h : s ≠ "") : s.data ≠ [] := by
  intro hd
  apply h
  have hs : s = ⟨s.data⟩ := rfl
  rw [hs, hd]

theorem pyCasefold_ne_empty (s : String) (h : s ≠ "") : pyCasefold s ≠ "" := by
  have hd := String_ne_empty_data s h
  intro hc
  unfold pyCasefold at hc
  have : (s.data.map Char.toLower) = [] := by
    have := congrArg String.data hc
    simpa using this
  simp at this
  exact hd this

theorem normGo_entry_props :
    ∀ (xs seen : List String) (s : String), s ∈ normGo seen xs →
      (∃ x ∈ xs, s = pyStrip x) ∧ s ≠ "" ∧ pyCasefold s ∉ seen := by
  intro xs
  induction xs with
  | nil => intro seen s hs; simp [normGo] at hs
  | cons c rest ih =>
    intro seen s hs
    rw [normGo] at hs
    by_cases he : pyStrip c = ""
    · rw [if_pos he] at hs
      obtain ⟨⟨x, hx, hsx⟩, hne, hnotin⟩ := ih seen s hs
      exact ⟨⟨x, List.mem_cons_of_mem c hx, hsx⟩, hne, hnotin⟩
    · rw [if_neg he] at hs
      by_cases hk : pyCasefold (pyStrip c) ∈ seen
      · rw [if_pos hk] at hs
        obtain ⟨⟨x, hx, hsx⟩, hne, hnotin⟩ := ih seen s hs
        exact ⟨⟨x, List.mem_cons_of_mem c hx, hsx⟩, hne, hnotin⟩
      · rw [if_neg hk] at hs
        rcases List.mem_cons.mp hs with hhead | htail
        · subst hhead
          exact ⟨⟨c, List.mem_cons_self c rest, rfl⟩, he, hk⟩
        · obtain ⟨⟨x, hx, hsx⟩, hne, hnotin⟩ := ih _ s htail
          refine ⟨⟨x, List.mem_cons_of_mem c hx, hsx⟩, hne, ?_⟩
          intro hmem
          exact hnotin (List.mem_cons_of_mem _ hmem)

theorem normGo_pairwise :
    ∀ (xs seen : List String),
      List.Pairwise (fun a b => pyCasefold a ≠ pyCasefold b) (normGo seen xs) := by
  intro xs
  induction xs with
  | nil => intro seen; simp [normGo]
  | cons c rest ih =>
    intro seen
    rw [normGo]
    by_cases he : pyStrip c = ""
    · rw [if_pos he]; exact ih seen
    · rw [if_neg he]
      by_cases hk : pyCasefold (pyStrip c) ∈ seen
      · rw [if_pos hk]; exact ih seen
      · rw [if_neg hk]
        refine List.Pairwise.cons ?_ (ih _)
        intro s hs
        have := (normGo_entry_props rest _ s hs).2.2
        intro heq
        exact this (heq ▸ List.mem_cons_self _ _)

theorem normGo_sublist :
    ∀ (xs seen : List String), (normGo seen xs).Sublist (xs.map pyStrip) := by
  intro xs
  induction xs with
  | nil => intro seen; simp [normGo]
  | cons c rest ih =>
    intro seen
    rw [normGo, List.map_cons]
    by_cases he : pyStrip c = ""
    · rw [if_pos he]; exact (ih seen).cons _
    · rw [if_neg he]
      by_cases hk : pyCasefold (pyStrip c) ∈ seen
      · rw [if_pos hk]; exact (ih seen).cons _
      · rw [if_neg hk]; exact (ih _).cons₂ _

theorem normGo_first_occ :
    ∀ (xs seen : List String) (s : String), s ∈ normGo seen xs →
      ∃ pre x post, xs = pre ++ x :: post ∧ pyStrip x = s ∧
        ∀ y ∈ pre, pyStrip y = "" ∨ pyCasefold (pyStrip y) ∈ seen ∨
          pyCasefold (pyStrip y) ≠ pyCasefold s := by
  intro xs
  induction xs with
  | nil => intro seen s hs; simp [normGo] at hs
  | cons c rest ih =>
    intro seen s hs
    rw [normGo] at hs
    by_cases he : pyStrip c = ""
    · rw [if_pos he] at hs
      obtain ⟨pre, x, post, hxs, hsx, hpre⟩ := ih seen s hs
      exact ⟨c :: pre, x, post, by rw [hxs]; rfl, hsx,
        fun y hy => by
          rcases List.mem_cons.mp hy with h | h
          · exact Or.inl (h ▸ he)
          · exact hpre y h⟩
    · rw [if_neg he] at hs
      by_cases hk : pyCasefold (pyStrip c) ∈ seen
      · rw [if_pos hk] at hs
        obtain ⟨pre, x, post, hxs, hsx, hpre⟩ := ih seen s hs
        exact ⟨c :: pre, x, post, by rw [hxs]; rfl, hsx,
          fun y hy => by
            rcases List.mem_cons.mp hy with h | h
            · exact Or.inr (Or.inl (h ▸ hk))
            · exact hpre y h⟩
      · rw [if_neg hk] at hs
        rcases List.mem_cons.mp hs with hhead | htail
        · exact ⟨[], c, rest, rfl, hhead.symm, by simp⟩
        · obtain ⟨pre, x, post, hxs, hsx, hpre⟩ := ih _ s htail
          have hkey : pyCasefold s ∉ (pyCasefold (pyStrip c) :: seen) :=
            (normGo_entry_props rest _ s htail).2.2
          refine ⟨c :: pre, x, post, by rw [hxs]; rfl, hsx, fun y hy => ?_⟩
          rcases List.mem_cons.mp hy with h | h
          · subst h
            refine Or.inr (Or.inr ?_)
            intro heq
            exact hkey (heq ▸ List.mem_cons_self _ _)
          · rcases hpre y h with h1 | h2 | h3
            · exact Or.inl h1
            · rcases List.mem_cons.mp h2 with hh | hh
              · refine Or.inr (Or.inr ?_)
                rw [hh]
                intro heq
                exact hkey (heq ▸ List.mem_cons_self _ _)
              · exact Or.inr (Or.inl hh)
            · exact Or.inr (Or.inr h3)

theorem normGo_complete :
    ∀ (xs seen : List String) (x : String), x ∈ xs → pyStrip x ≠ "" →
      pyCasefold (pyStrip x) ∈ seen ∨
        ∃ s ∈ normGo seen xs, pyCasefold s = pyCasefold (pyStrip x) := by
  intro xs
  induction xs with
  | nil => intro seen x hx; simp at hx
  | cons c rest ih =>
    intro seen x hx hne
    rw [normGo]
    by_cases he : pyStrip c = ""
    · rw [if_pos he]
      rcases List.mem_cons.mp hx with h | h
      · exact absurd (h ▸ he) hne
      · exact ih seen x h hne
    · rw [if_neg he]
      by_cases hk : pyCasefold (pyStrip c) ∈ seen
      · rw [if_pos hk]
        rcases List.mem_cons.mp hx with h | h
        · subst h; exact Or.inl hk
        · exact ih seen x h hne
      · rw [if_neg hk]
        rcases List.mem_cons.mp hx with h | h
        · subst h
          exact Or.inr ⟨pyStrip x, List.mem_cons_self _ _, rfl⟩
        · rcases ih (pyCasefold (pyStrip c) :: seen) x h hne with hmem | ⟨s, hs, hkey⟩
          · rcases List.mem_cons.mp hmem with hh | hh
            · exact Or.inr ⟨pyStrip c, List.mem_cons_self _ _, hh.symm⟩
            · exact Or.inl hh
          · exact Or.inr ⟨s, List.mem_cons_of_mem _ hs, hkey⟩

theorem normGo_eq_self :
    ∀ (ys seen : List String),
      (∀ y ∈ ys, pyStrip y = y ∧ y ≠ "") →
      (∀ y ∈ ys, pyCasefold y ∉ seen) →
      List.Pairwise (fun a b => pyCasefold a ≠ pyCasefold b) ys →
      normGo seen ys = ys := by
  intro ys
  induction ys with
  | nil => intro seen _ _ _; rfl
  | cons y rest ih =>
    intro seen hstr hseen hpw
    obtain ⟨hy, hyne⟩ := hstr y (List.mem_cons_self _ _)
    rw [normGo, hy, if_neg hyne, if_neg (hseen y (List.mem_cons_self _ _))]
    congr 1
    apply ih
    · exact fun z hz => hstr z (List.mem_cons_of_mem _ hz)
    · intro z hz
      intro hmem
      rcases List.mem_cons.mp hmem with hh | hh
      · exact (List.pairwise_cons.mp hpw).1 z hz hh.symm
      · exact hseen z (List.mem_cons_of_mem _ hz) hh
    · exact (List.pairwise_cons.mp hpw).2

theorem normalize_idem (xs : List String) :
    _normalize_skill_choices (_normalize_skill_choices xs) = _normalize_skill_choices xs := by
  unfold _normalize_skill_choices
  apply normGo_eq_self
  · intro y hy
    obtain ⟨⟨x, _, hyx⟩, hne, _⟩ := normGo_entry_props xs [] y hy
    exact ⟨by rw [hyx, pyStrip_idem], hne⟩
  · intro y _
    simp
  · exact normGo_pairwise xs []

theorem dumpsList_ne_empty (l : List String) : dumpsList l ≠ "" := by
  cases l with
  | nil => decide
  | cons x xs =>
    intro h
    have := congrArg String.data h
    simp [dumpsList] at this

theorem deser_ser (xs : List String) :
    _deserialize_skill_choices (some (_serialize_skill_choices xs)) =
      _normalize_skill_choices xs := by
  have hne : _serialize_skill_choices xs ≠ "" := dumpsList_ne_empty _
  simp only [_deserialize_skill_choices, if_neg hne]
  unfold _serialize_skill_choices
  rw [parseStrList_dumpsList]
  exact normalize_idem xs

theorem normalize_props (xs : List String) :
    List.Pairwise (fun a b => pyCasefold a ≠ pyCasefold b) (_normalize_skill_choices xs) ∧
    (∀ s ∈ _normalize_skill_choices xs, pyStrip s = s ∧ s ≠ "") ∧
    (_normalize_skill_choices xs).Sublist (xs.map pyStrip) ∧
    (∀ s ∈ _normalize_skill_choices xs, ∃ pre x post, xs = pre ++ x :: post ∧ pyStrip x = s ∧
      ∀ y ∈ pre, pyCasefold (pyStrip y) ≠ pyCasefold s) ∧
    (∀ x ∈ xs, pyStrip x ≠ "" →
      ∃ s ∈ _normalize_skill_choices xs, pyCasefold s = pyCasefold (pyStrip x)) := by
  refine ⟨normGo_pairwise xs [], ?_, normGo_sublist xs [], ?_, ?_⟩
  · intro s hs
    obtain ⟨⟨x, _, hsx⟩, hne, _⟩ := normGo_entry_props xs [] s hs
    exact ⟨by rw [hsx, pyStrip_idem], hne⟩
  · intro s hs
    obtain ⟨⟨x0, _, _⟩, hne, _⟩ := normGo_entry_props xs [] s hs
    obtain ⟨pre, x, post, hxs, hsx, hpre⟩ := normGo_first_occ xs [] s hs
    refine ⟨pre, x, post, hxs, hsx, fun y hy => ?_⟩
    rcases hpre y hy with h1 | h2 | h3
    · rw [h1]
      show pyCasefold "" ≠ pyCasefold s
      have : pyCasefold "" = "" := rfl
      rw [this]
      exact fun hc => pyCasefold_ne_empty s hne hc.symm
    · simp at h2
    · exact h3
  · intro x hx hne
    rcases normGo_complete xs [] x hx hne with hmem | hout
    · simp at hmem
    · exact hout

theorem insertLevels_fail (bid : Nat) (fail : Nat → Bool) :
    ∀ (lvls : List BuildLevelCreate) (db : CompanionDB) (i : Nat),
      (∃ j, j < lvls.length ∧ fail (i + j) = true) →
      insertLevels bid fail db lvls i = none := by
  intro lvls
  induction lvls with
  | nil =>
    intro db i h
    obtain ⟨j, hj, _⟩ := h
    simp at hj
  | cons lvl rest ih =>
    intro db i h
    rw [insertLevels]
    by_cases hf : fail i = true
    · rw [if_pos hf]
    · rw [if_neg hf]
      apply ih
      obtain ⟨j, hj, hfj⟩ := h
      cases j with
      | zero => exact absurd (by simpa using hfj) hf
      | succ k =>
        refine ⟨k, by simpa using Nat.lt_of_succ_lt_succ hj, ?_⟩
        rw [show i + 1 + k = i + (k + 1) by omega]
        exact hfj

theorem insertLevels_noFail (bid : Nat) :
    ∀ (lvls : List BuildLevelCreate) (db : CompanionDB) (i : Nat),
      ∃ db' rows,
        insertLevels bid (fun _ => false) db lvls i = some db' ∧
        db'.builds = db.builds ∧
        db'.nextBuildId = db.nextBuildId ∧
        db'.build_levels = db.build_levels ++ rows ∧
        rows.length = lvls.length ∧
        (∀ r ∈ rows, r.build_id = bid ∧ db.nextLevelId ≤ r.id) := by
  intro lvls
  induction lvls with
  | nil =>
    intro db i
    exact ⟨db, [], rfl, rfl, rfl, by simp, rfl, by simp⟩
  | cons lvl rest ih =>
    intro db i
    rw [insertLevels, if_neg (by simp)]
    set newRow : LevelRow :=
      { id := db.nextLevelId
        build_id := bid
        level := lvl.level
        spells := some (orEmpty lvl.spells)
        feats := some (orEmpty lvl.feats)
        subclass_choice := some (orEmpty lvl.subclass_choice)
        multiclass_choice := some (orEmpty lvl.multiclass_choice)
        note := some (orEmpty lvl.note) } with hnew
    obtain ⟨db', rows, heq, hb, hnb, hl, hlen, hprop⟩ :=
      ih { db with build_levels := db.build_levels ++ [newRow],
                   nextLevelId := db.nextLevelId + 1 } (i + 1)
    refine ⟨db', newRow :: rows, heq, hb, hnb, ?_, by simp [hlen], ?_⟩
    · rw [hl]
      simp
    · intro r hr
      rcases List.mem_cons.mp hr with h | h
      · subst h
        exact ⟨rfl, le_refl _⟩
      · obtain ⟨h1, h2⟩ := hprop r h
        exact ⟨h1, by simp at h2; omega⟩

theorem find?_append_right {α : Type} (p : α → Bool) (l1 l2 : List α)
    (h : ∀ x ∈ l1, p x = false) : (l1 ++ l2).find? p = l2.find? p := by
  induction l1 with
  | nil => simp
  | cons a l ih =>
    rw [List.cons_append, List.find?_cons, h a (List.mem_cons_self _ _)]
    exact ih (fun x hx => h x (List.mem_cons_of_mem _ hx))

theorem find?_filter_not {α : Type} (p : α → Bool) (l : List α) :
    (l.filter (fun x => !(p x))).find? p = none := by
  rw [List.find?_eq_none]
  intro x hx
  have := (List.mem_filter.mp hx).2
  simp at this
  simp [this]

theorem filter_not_idem {α : Type} (p : α → Bool) (l : List α) :
    (l.filter (fun x => !(p x))).filter (fun x => !(p x)) = l.filter (fun x => !(p x)) := by
  rw [List.filter_eq_self]
  intro x hx
  exact (List.mem_filter.mp hx).2

theorem create_build_spec (db : CompanionDB) (p : BuildCreate) (hwf : db.WF) :
    ∃ db2 b, create_build db p (fun _ => false) = (db2, Except.ok b) ∧
      _load_build db2 b.id = Except.ok b ∧
      b.id = db.nextBuildId ∧
      b.skill_choices = _normalize_skill_choices p.skill_choices ∧
      b.levels.length = p.levels.length ∧
      List.Sorted (· ≤ ·) (b.levels.map (fun l => l.level)) := by
  obtain ⟨hwf1, hwf2, hwf3, hwf4⟩ := hwf
  set new_id := db.nextBuildId with hnid
  set newRow : BuildRow :=
    { id := new_id
      name := p.name
      race := p.race
      class_name := p.class_name
      subclass := p.subclass
      notes := p.notes
      skill_choices := some (_serialize_skill_choices p.skill_choices) } with hrow
  set db1 : CompanionDB :=
    { db with builds := db.builds ++ [newRow], nextBuildId := new_id + 1 } with hdb1
  obtain ⟨db2, rows, heq, hb, hnb, hl, hlen, hprops⟩ :=
    insertLevels_noFail new_id p.levels db1 0
  have h0 : ¬(new_id = 0) := by omega
  have hfind : db2.builds.find? (fun r => r.id == new_id) = some newRow := by
    rw [hb]
    show (db.builds ++ [newRow]).find? (fun r => r.id == new_id) = some newRow
    rw [find?_append_right]
    · simp [List.find?_cons]
    · intro x hx
      exact beq_eq_false_iff_ne.mpr (by have := hwf1 x hx; omega)
  have hfilter : db2.build_levels.filter (fun r => r.build_id == new_id) = rows := by
    rw [hl]
    show (db.build_levels ++ rows).filter (fun r => r.build_id == new_id) = rows
    rw [List.filter_append]
    have h1 : db.build_levels.filter (fun r => r.build_id == new_id) = [] := by
      rw [List.filter_eq_nil_iff]
      intro a ha
      simp only [Bool.not_eq_true]
      exact beq_eq_false_iff_ne.mpr (by have := hwf2 a ha; omega)
    have h2 : rows.filter (fun r => r.build_id == new_id) = rows := by
      rw [List.filter_eq_self]
      intro a ha
      exact beq_iff_eq.mpr (hprops a ha).1
    rw [h1, h2, List.nil_append]
  have hload : _load_build db2 new_id = Except.ok
      { id := newRow.id
        name := newRow.name
        race := newRow.race
        class_name := newRow.class_name
        subclass := newRow.subclass
        notes := newRow.notes
        skill_choices := _deserialize_skill_choices newRow.skill_choices
        levels := (List.insertionSort levelLe rows).map (fun r =>
          { id := r.id
            level := r.level
            spells := orEmpty r.spells
            feats := orEmpty r.feats
            subclass_choice := orEmpty r.subclass_choice
            multiclass_choice := orEmpty r.multiclass_choice
            note := orEmpty r.note }) } := by
    rw [_load_build, hfind, hfilter]
  have hcreate : create_build db p (fun _ => false) = (db2, _load_build db2 new_id) := by
    rw [create_build]
    simp only [← hnid, ← hrow, ← hdb1, if_neg h0]
    rw [heq]
  refine ⟨db2, _, by rw [hcreate, hload], ?_, rfl, ?_, ?_, ?_⟩
  · show _load_build db2 newRow.id = _
    exact hload
  · show _deserialize_skill_choices newRow.skill_choices = _
    exact deser_ser p.skill_choices
  · simp only [List.length_map]
    rw [(List.perm_insertionSort levelLe rows).length_eq, hlen]
  · rw [List.map_map]
    have hsorted : List.Pairwise levelLe (List.insertionSort levelLe rows) :=
      List.sorted_insertionSort levelLe rows
    exact List.Pairwise.map _ (fun a b hab => hab) hsorted

theorem find?_map_eq {α : Type} (p : α → Bool) (f : α → α)
    (hp : ∀ x, p (f x) = p x) :
    ∀ l : List α, (l.map f).find? p = (l.find? p).map f := by
  intro l
  induction l with
  | nil => simp
  | cons a l ih =>
    rw [List.map_cons, List.find?_cons, List.find?_cons, hp a]
    by_cases ha : p a = true
    · simp [ha]
    · simp only [Bool.not_eq_true] at ha
      simp [ha, ih]

theorem filter_of_filter_not {α : Type} (p : α → Bool) (l : List α) :
    (l.filter (fun x => !(p x))).filter p = [] := by
  rw [List.filter_eq_nil_iff]
  intro a ha
  have := (List.mem_filter.mp ha).2
  simp at this
  simp [this]

theorem update_build_spec (db : CompanionDB) (build_id : Nat) (p : BuildCreate)
    (hwf : db.WF)
    (hfind : (db.builds.find? (fun r => r.id == build_id)).isSome) :
    ∃ db3 b rows, update_build db build_id p (fun _ => false) = (db3, Except.ok b) ∧
      _load_build db3 build_id = Except.ok b ∧
      b.skill_choices = _normalize_skill_choices p.skill_choices ∧
      b.levels.length = p.levels.length ∧
      List.Sorted (· ≤ ·) (b.levels.map (fun l => l.level)) ∧
      db3.build_levels =
        db.build_levels.filter (fun r => !(r.build_id == build_id)) ++ rows ∧
      db3.build_levels.filter (fun r => r.build_id == build_id) = rows ∧
      rows.length = p.levels.length ∧
      (∀ r ∈ rows, r.build_id = build_id ∧ db.nextLevelId ≤ r.id) := by
  obtain ⟨row0, hrow0⟩ := Option.isSome_iff_exists.mp hfind
  set upd : BuildRow → BuildRow := fun r =>
    if r.id == build_id then
      { r with
        name := p.name
        race := p.race
        class_name := p.class_name
        subclass := p.subclass
        notes := p.notes
        skill_choices := some (_serialize_skill_choices p.skill_choices) }
    else r with hupd
  set db1 : CompanionDB := { db with builds := db.builds.map upd } with hdb1
  set db2 : CompanionDB :=
    { db1 with build_levels := db1.build_levels.filter (fun r => !(r.build_id == build_id)) }
    with hdb2
  obtain ⟨db3, rows, heq, hb, hnb, hl, hlen, hprops⟩ :=
    insertLevels_noFail build_id p.levels db2 0
  have hupd_id : ∀ r : BuildRow, (upd r).id = r.id := by
    intro r
    rw [hupd]
    by_cases h : r.id == build_id
    · simp [h]
    · simp [h]
  have hfind3 : db3.builds.find? (fun r => r.id == build_id) = some (upd row0) := by
    rw [hb]
    show (db.builds.map upd).find? (fun r => r.id == build_id) = _
    rw [find?_map_eq _ upd (fun x => by rw [hupd_id x]), hrow0]
    rfl
  have hrow0p : (row0.id == build_id) = true := by
    have h := List.find?_some hrow0
    simpa using h
  have hskills : (upd row0).skill_choices = some (_serialize_skill_choices p.skill_choices) := by
    rw [hupd]
    simp [hrow0p]
  have hfilter : db3.build_levels.filter (fun r => r.build_id == build_id) = rows := by
    rw [hl]
    show ((db.build_levels.filter (fun r => !(r.build_id == build_id))) ++ rows).filter
        (fun r => r.build_id == build_id) = rows
    rw [List.filter_append, filter_of_filter_not]
    have h2 : rows.filter (fun r => r.build_id == build_id) = rows := by
      rw [List.filter_eq_self]
      intro a ha
      exact beq_iff_eq.mpr (hprops a ha).1
    rw [h2, List.nil_append]
  have hload : _load_build db3 build_id = Except.ok
      { id := (upd row0).id
        name := (upd row0).name
        race := (upd row0).race
        class_name := (upd row0).class_name
        subclass := (upd row0).subclass
        notes := (upd row0).notes
        skill_choices := _deserialize_skill_choices (upd row0).skill_choices
        levels := (List.insertionSort levelLe rows).map (fun r =>
          { id := r.id
            level := r.level
            spells := orEmpty r.spells
            feats := orEmpty r.feats
            subclass_choice := orEmpty r.subclass_choice
            multiclass_choice := orEmpty r.multiclass_choice
            note := orEmpty r.note }) } := by
    rw [_load_build, hfind3, hfilter]
  have hupdate : update_build db build_id p (fun _ => false) =
      (db3, _load_build db3 build_id) := by
    rw [update_build, hrow0]
    simp only [← hupd, ← hdb1, ← hdb2]
    rw [heq]
  refine ⟨db3, _, rows, by rw [hupdate, hload], hload, ?_, ?_, ?_, ?_, hfilter, hlen, hprops⟩
  · show _deserialize_skill_choices (upd row0).skill_choices = _
    rw [hskills]
    exact deser_ser p.skill_choices
  · simp only [List.length_map]
    rw [(List.perm_insertionSort levelLe rows).length_eq, hlen]
  · rw [List.map_map]
    exact List.Pairwise.map _ (fun a b hab => hab) (List.sorted_insertionSort levelLe rows)
  · rw [hl]

theorem findSchool_append_skip (d : String) (l1 rest : List (String × String))
    (h : ∀ q ∈ l1, containsWholeWordCI d q.1 = false) :
    findSchool (l1 ++ rest) d = findSchool rest d := by
  induction l1 with
  | nil => rfl
  | cons q l ih =>
    obtain ⟨kw, canonical⟩ := q
    rw [List.cons_append, findSchool, if_neg]
    · exact ih (fun q hq => h q (List.mem_cons_of_mem _ hq))
    · have := h (kw, canonical) (List.mem_cons_self _ _)
      simp at this
      simp [this]

theorem findSchool_none (d : String) (l : List (String × String))
    (h : ∀ q ∈ l, containsWholeWordCI d q.1 = false) :
    findSchool l d = none := by
  have := findSchool_append_skip d l [] h
  simpa using this

theorem containsWholeWordCI_empty (k : String) : containsWholeWordCI "" k = false := rfl

theorem update_loot_item_state (db : List ItemRow) (item_id : Nat) (p : LootItemUpdate)
    (hne : (lootUpdates p).isEmpty = false) :
    (update_loot_item db item_id p).1 =
      db.map (fun r => if r.id == item_id then (lootUpdates p).foldl setItemCol r else r) := by
  rw [update_loot_item]
  cases hf : db.find? (fun r => r.id == item_id) with
  | none =>
    have hall : ∀ r ∈ db,
        (if r.id == item_id then (lootUpdates p).foldl setItemCol r else r) = r := by
      intro r hr
      have h := List.find?_eq_none.mp hf r hr
      simp at h
      simp [h]
    rw [List.map_congr_left hall]
    simp
  | some row =>
    simp only [hne, Bool.false_eq_true, if_false]
    cases h2 : (db.map (fun r =>
        if r.id == item_id then (lootUpdates p).foldl setItemCol r else r)).find?
        (fun r => r.id == item_id) <;> rfl

theorem update_enemy_state (db : List EnemyRow) (enemy_id : Nat) (p : EnemyUpdate)
    (hne : (enemyUpdates p).isEmpty = false) :
    (update_enemy db enemy_id p).1 =
      db.map (fun r => if r.id == enemy_id then (enemyUpdates p).foldl setEnemyCol r else r) := by
  rw [update_enemy]
  cases hf : db.find? (fun r => r.id == enemy_id) with
  | none =>
    have hall : ∀ r ∈ db,
        (if r.id == enemy_id then (enemyUpdates p).foldl setEnemyCol r else r) = r := by
      intro r hr
      have h := List.find?_eq_none.mp hf r hr
      simp at h
      simp [h]
    rw [List.map_congr_left hall]
    simp
  | some row =>
    simp only [hne, Bool.false_eq_true, if_false]
    cases h2 : (db.map (fun r =>
        if r.id == enemy_id then (enemyUpdates p).foldl setEnemyCol r else r)).find?
        (fun r => r.id == enemy_id) <;> rfl

/-- C1: if any BuildLevel insert fails during Create (POST /api/builds), the
entire transaction, the Build row insert and all prior level inserts included,
is rolled back and the 500 persistence error with detail Failed to create
build is surfaced, so that afterwards (when no build of that name existed
before) zero Build rows and zero BuildLevel rows exist for the attempted
build name: no partial aggregate is ever visible. -/
theorem create_build_rolls_back_on_level_failure (db : CompanionDB) (p : BuildCreate)
    (fail : Nat → Bool) (h : ∃ j, j < p.levels.length ∧ fail j = true) :
    create_build db p fail = (db, Except.error ⟨500, "Failed to create build"⟩) ∧
    ((∀ r ∈ db.builds, r.name ≠ p.name) →
      (∀ r ∈ (create_build db p fail).1.builds, r.name ≠ p.name) ∧
      (∀ l ∈ (create_build db p fail).1.build_levels,
        ∀ r ∈ (create_build db p fail).1.builds, l.build_id = r.id → r.name ≠ p.name)) := by
  have hfail0 : ∃ j, j < p.levels.length ∧ fail (0 + j) = true := by
    obtain ⟨j, hj, hf⟩ := h
    exact ⟨j, hj, by simpa using hf⟩
  have heq : create_build db p fail = (db, Except.error ⟨500, "Failed to create build"⟩) := by
    by_cases h0 : db.nextBuildId = 0
    · simp [create_build, h0]
    · simp only [create_build, if_neg h0]
      rw [insertLevels_fail db.nextBuildId fail p.levels _ 0 hfail0]
  refine ⟨heq, fun hno => ?_⟩
  rw [heq]
  exact ⟨hno, fun l _ r hr _ => hno r hr⟩

/-- C1 witness: a concrete one-level create whose level insert raises is fully
rolled back on the empty database. -/
theorem create_build_rolls_back_witness :
    create_build ⟨[], [], 1, 1⟩
      ⟨"Arcane Archer", some "Elf", some "Fighter", none, none, ["Acrobatics"],
        [⟨1, none, none, none, none, none⟩]⟩ (fun _ => true) =
      (⟨[], [], 1, 1⟩, Except.error ⟨500, "Failed to create build"⟩) :=
  (create_build_rolls_back_on_level_failure ⟨[], [], 1, 1⟩
    ⟨"Arcane Archer", some "Elf", some "Fighter", none, none, ["Acrobatics"],
      [⟨1, none, none, none, none, none⟩]⟩ (fun _ => true) ⟨0, by decide, rfl⟩).1

/-- C2: for every skill-choice list supplied at build creation or replacement,
Load (GET api builds id) returns a skill_choices list equal to the normalized
input: no two entries are equal case-insensitively, every entry is trimmed of
surrounding whitespace and non-empty, the list is a subsequence of the
stripped inputs (first-seen order), each entry is the stripped first input
occurrence of its case-insensitive key (original casing preserved), and every
input with non-empty strip is represented. -/
theorem load_returns_normalized_skill_choices (db : CompanionDB) (p : BuildCreate)
    (hwf : db.WF) :
    ∃ db2 b, create_build db p (fun _ => false) = (db2, Except.ok b) ∧
      _load_build db2 b.id = Except.ok b ∧
      b.skill_choices = _normalize_skill_choices p.skill_choices ∧
      List.Pairwise (fun a c => pyCasefold a ≠ pyCasefold c) b.skill_choices ∧
      (∀ s ∈ b.skill_choices, pyStrip s = s ∧ s ≠ "") ∧
      b.skill_choices.Sublist (p.skill_choices.map pyStrip) ∧
      (∀ s ∈ b.skill_choices, ∃ pre x post, p.skill_choices = pre ++ x :: post ∧
        pyStrip x = s ∧ ∀ y ∈ pre, pyCasefold (pyStrip y) ≠ pyCasefold s) ∧
      (∀ x ∈ p.skill_choices, pyStrip x ≠ "" →
        ∃ s ∈ b.skill_choices, pyCasefold s = pyCasefold (pyStrip x)) ∧
      (∀ bid, (db.builds.find? (fun r => r.id == bid)).isSome →
        ∃ db3 b2, update_build db bid p (fun _ => false) = (db3, Except.ok b2) ∧
          b2.skill_choices = _normalize_skill_choices p.skill_choices) := by
  obtain ⟨db2, b, hc, hl, _, hsk, _, _⟩ := create_build_spec db p hwf
  obtain ⟨hpw, htrim, hsub, hocc, hcomp⟩ := normalize_props p.skill_choices
  refine ⟨db2, b, hc, hl, hsk, ?_, ?_, ?_, ?_, ?_, ?_⟩
  · rw [hsk]; exact hpw
  · rw [hsk]; exact htrim
  · rw [hsk]; exact hsub
  · rw [hsk]; exact hocc
  · rw [hsk]; exact hcomp
  · intro bid hbid
    obtain ⟨db3, b2, rows, hu, _, hsk2, _⟩ := update_build_spec db bid p hwf hbid
    exact ⟨db3, b2, hu, hsk2⟩

/-- C2 witness: creating a build whose skill choices contain duplicates that
differ only in case and surrounding whitespace yields, on load, the
deduplicated trimmed list with first-seen order and casing. -/
theorem load_returns_normalized_skill_choices_witness :
    ∃ db2 b, create_build ⟨[], [], 1, 1⟩
        ⟨"Arcane Archer", none, none, none, none,
          ["Acrobatics", " acrobatics ", "", "Stealth"], []⟩ (fun _ => false) =
        (db2, Except.ok b) ∧
      _load_build db2 b.id = Except.ok b ∧
      b.skill_choices =
        _normalize_skill_choices ["Acrobatics", " acrobatics ", "", "Stealth"] ∧
      List.Pairwise (fun a c => pyCasefold a ≠ pyCasefold c) b.skill_choices ∧
      (∀ s ∈ b.skill_choices, pyStrip s = s ∧ s ≠ "") ∧
      b.skill_choices.Sublist
        ((["Acrobatics", " acrobatics ", "", "Stealth"] : List String).map pyStrip) ∧
      (∀ s ∈ b.skill_choices, ∃ pre x post,
        (["Acrobatics", " acrobatics ", "", "Stealth"] : List String) = pre ++ x :: post ∧
        pyStrip x = s ∧ ∀ y ∈ pre, pyCasefold (pyStrip y) ≠ pyCasefold s) ∧
      (∀ x ∈ (["Acrobatics", " acrobatics ", "", "Stealth"] : List String), pyStrip x ≠ "" →
        ∃ s ∈ b.skill_choices, pyCasefold s = pyCasefold (pyStrip x)) ∧
      (∀ bid, ((⟨[], [], 1, 1⟩ : CompanionDB).builds.find? (fun r => r.id == bid)).isSome →
        ∃ db3 b2, update_build ⟨[], [], 1, 1⟩ bid
            ⟨"Arcane Archer", none, none, none, none,
              ["Acrobatics", " acrobatics ", "", "Stealth"], []⟩ (fun _ => false) =
            (db3, Except.ok b2) ∧
          b2.skill_choices =
            _normalize_skill_choices ["Acrobatics", " acrobatics ", "", "Stealth"]) :=
  load_returns_normalized_skill_choices ⟨[], [], 1, 1⟩
    ⟨"Arcane Archer", none, none, none, none,
      ["Acrobatics", " acrobatics ", "", "Stealth"], []⟩ (by simp [CompanionDB.WF])

/-- C3: Replace (PUT api builds id) is a full destructive replace of the
level collection: for a build whose stored levels have level numbers 1 and 2,
replacing with a one-level payload leaves Load with exactly one level, exactly
one build_levels row for that build (the freshly inserted one), and every
pre-existing level row of the build, the level-2 row included, deleted. -/
theorem update_build_replaces_levels (db : CompanionDB) (build_id : Nat)
    (p : BuildCreate) (lv : BuildLevelCreate) (hwf : db.WF)
    (hfind : (db.builds.find? (fun r => r.id == build_id)).isSome)
    (hold : (db.build_levels.filter (fun r => r.build_id == build_id)).map
      (fun r => r.level) = [1, 2])
    (hp : p.levels = [lv]) :
    ∃ db3 b, update_build db build_id p (fun _ => false) = (db3, Except.ok b) ∧
      _load_build db3 build_id = Except.ok b ∧
      b.levels.length = 1 ∧
      (db3.build_levels.filter (fun r => r.build_id == build_id)).length = 1 ∧
      (∀ r ∈ db.build_levels, r.build_id = build_id → r ∉ db3.build_levels) := by
  obtain ⟨db3, b, rows, hu, hl, _, hblen, _, hlevels, hfilter, hrlen, hprops⟩ :=
    update_build_spec db build_id p hwf hfind
  refine ⟨db3, b, hu, hl, by rw [hblen, hp]; rfl, by rw [hfilter, hrlen, hp]; rfl, ?_⟩
  intro r hr hrbid hmem
  rw [hlevels] at hmem
  rcases List.mem_append.mp hmem with hm | hm
  · have h2 := (List.mem_filter.mp hm).2
    simp [hrbid] at h2
  · have h2 := (hprops r hm).2
    have h3 := hwf.2.2.1 r hr
    omega

/-- C3 witness: a concrete build with levels 1 and 2 replaced by a single
level 1 payload. -/
theorem update_build_replaces_levels_witness :
    ∃ db3 b, update_build
        ⟨[⟨1, "Arcane Archer", none, none, none, none, some "[]"⟩],
         [⟨1, 1, 1, some "", some "", some "", some "", some ""⟩,
          ⟨2, 1, 2, some "", some "", some "", some "", some ""⟩], 2, 3⟩ 1
        ⟨"Arcane Archer", none, none, none, none, [],
          [⟨1, some "Magic Missile", none, none, none, none⟩]⟩ (fun _ => false) =
        (db3, Except.ok b) ∧
      _load_build db3 1 = Except.ok b ∧
      b.levels.length = 1 ∧
      (db3.build_levels.filter (fun r => r.build_id == 1)).length = 1 ∧
      (∀ r ∈ (⟨[⟨1, "Arcane Archer", none, none, none, none, some "[]"⟩],
         [⟨1, 1, 1, some "", some "", some "", some "", some ""⟩,
          ⟨2, 1, 2, some "", some "", some "", some "", some ""⟩], 2, 3⟩ :
            CompanionDB).build_levels,
        r.build_id = 1 → r ∉ db3.build_levels) :=
  update_build_replaces_levels _ 1 _ _ (by simp [CompanionDB.WF])
    (by decide) (by decide) rfl

/-- C4: for every build created with N levels, Load returns exactly N levels
sorted ascending by level number, regardless of the order the levels were
supplied in; the same holds for the replace path. -/
theorem load_levels_sorted (db : CompanionDB) (p : BuildCreate) (hwf : db.WF) :
    ∃ db2 b, create_build db p (fun _ => false) = (db2, Except.ok b) ∧
      _load_build db2 b.id = Except.ok b ∧
      b.levels.length = p.levels.length ∧
      List.Sorted (fun a c => a ≤ c) (b.levels.map (fun l => l.level)) ∧
      (∀ build_id, (db.builds.find? (fun r => r.id == build_id)).isSome →
        ∃ db3 b2, update_build db build_id p (fun _ => false) = (db3, Except.ok b2) ∧
          b2.levels.length = p.levels.length ∧
          List.Sorted (fun a c => a ≤ c) (b2.levels.map (fun l => l.level))) := by
  obtain ⟨db2, b, hc, hl, _, _, hlen, hsort⟩ := create_build_spec db p hwf
  refine ⟨db2, b, hc, hl, hlen, hsort, ?_⟩
  intro build_id hbid
  obtain ⟨db3, b2, rows, hu, _, _, hlen2, hsort2, _⟩ := update_build_spec db build_id p hwf hbid
  exact ⟨db3, b2, hu, hlen2, hsort2⟩

/-- C4 witness: levels supplied in the order 3, 1, 2 come back as three levels
sorted ascending. -/
theorem load_levels_sorted_witness :
    ∃ db2 b, create_build ⟨[], [], 1, 1⟩
        ⟨"Arcane Archer", none, none, none, none, [],
          [⟨3, none, none, none, none, none⟩,
           ⟨1, none, none, none, none, none⟩,
           ⟨2, none, none, none, none, none⟩]⟩ (fun _ => false) =
        (db2, Except.ok b) ∧
      _load_build db2 b.id = Except.ok b ∧
      b.levels.length =
        ([⟨3, none, none, none, none, none⟩,
          ⟨1, none, none, none, none, none⟩,
          ⟨2, none, none, none, none, none⟩] : List BuildLevelCreate).length ∧
      List.Sorted (fun a c => a ≤ c) (b.levels.map (fun l => l.level)) ∧
      (∀ build_id, ((⟨[], [], 1, 1⟩ : CompanionDB).builds.find?
          (fun r => r.id == build_id)).isSome →
        ∃ db3 b2, update_build ⟨[], [], 1, 1⟩ build_id
            ⟨"Arcane Archer", none, none, none, none, [],
              [⟨3, none, none, none, none, none⟩,
               ⟨1, none, none, none, none, none⟩,
               ⟨2, none, none, none, none, none⟩]⟩ (fun _ => false) =
            (db3, Except.ok b2) ∧
          b2.levels.length =
            ([⟨3, none, none, none, none, none⟩,
              ⟨1, none, none, none, none, none⟩,
              ⟨2, none, none, none, none, none⟩] : List BuildLevelCreate).length ∧
          List.Sorted (fun a c => a ≤ c) (b2.levels.map (fun l => l.level))) :=
  load_levels_sorted ⟨[], [], 1, 1⟩
    ⟨"Arcane Archer", none, none, none, none, [],
      [⟨3, none, none, none, none, none⟩,
       ⟨1, none, none, none, none, none⟩,
       ⟨2, none, none, none, none, none⟩]⟩ (by simp [CompanionDB.WF])

/-- C5: Replace (PUT api builds id) on a missing build id fails with 404 and
the exact detail Build not found; the existence check runs first, so the
stored builds and levels are unchanged whatever the payload and whatever the
storage failure behavior of the later statements. -/
theorem update_build_missing_404 (db : CompanionDB) (build_id : Nat)
    (p : BuildCreate) (fail : Nat → Bool)
    (h : db.builds.find? (fun r => r.id == build_id) = none) :
    update_build db build_id p fail = (db, Except.error ⟨404, "Build not found"⟩) := by
  rw [update_build, h]

/-- C5 witness: PUT on build 999 of an empty store returns 404 Build not
found and changes nothing. -/
theorem update_build_missing_404_witness :
    update_build ⟨[], [], 1, 1⟩ 999
      ⟨"Arcane Archer", some "Elf", some "Fighter", none, none, [], []⟩ (fun _ => false) =
      (⟨[], [], 1, 1⟩, Except.error ⟨404, "Build not found"⟩) :=
  update_build_missing_404 ⟨[], [], 1, 1⟩ 999
    ⟨"Arcane Archer", some "Elf", some "Fighter", none, none, [], []⟩ (fun _ => false) rfl

/-- C6: a loot-item partial update whose payload explicitly supplies only the
description field generates an UPDATE statement naming only the description
column, and leaves every other field of every stored record byte-identical;
likewise for an enemy partial update supplying a single field (notes, the
enemy records having no description column). -/
theorem sparse_update_single_field (dbL : List ItemRow) (item_id : Nat)
    (pL : LootItemUpdate) (d : Option String)
    (dbE : List EnemyRow) (enemy_id : Nat) (pE : EnemyUpdate) (e : Option String)
    (hL : pL = ⟨FieldUpd.unset, FieldUpd.unset, FieldUpd.unset,
      FieldUpd.given d, FieldUpd.unset⟩)
    (hE : pE = ⟨FieldUpd.unset, FieldUpd.unset, FieldUpd.unset, FieldUpd.unset,
      FieldUpd.unset, FieldUpd.given e⟩) :
    (lootUpdates pL).map Prod.fst = ["description"] ∧
    (update_loot_item dbL item_id pL).1 =
      dbL.map (fun r => if r.id == item_id then { r with description := toSqlText d } else r) ∧
    (enemyUpdates pE).map Prod.fst = ["notes"] ∧
    (update_enemy dbE enemy_id pE).1 =
      dbE.map (fun r => if r.id == enemy_id then { r with notes := toSqlText e } else r) := by
  subst hL hE
  refine ⟨rfl, ?_, rfl, ?_⟩
  · rw [update_loot_item_state dbL item_id
      ⟨FieldUpd.unset, FieldUpd.unset, FieldUpd.unset, FieldUpd.given d, FieldUpd.unset⟩ rfl]
    apply List.map_congr_left
    intro r _
    by_cases h : (r.id == item_id) = true
    · simp only [h, if_true]
      show setItemCol r ("description", toSqlText d) = _
      rfl
    · simp only [Bool.not_eq_true] at h
      simp [h]
  · rw [update_enemy_state dbE enemy_id
      ⟨FieldUpd.unset, FieldUpd.unset, FieldUpd.unset, FieldUpd.unset,
        FieldUpd.unset, FieldUpd.given e⟩ rfl]
    apply List.map_congr_left
    intro r _
    by_cases h : (r.id == enemy_id) = true
    · simp only [h, if_true]
      show setEnemyCol r ("notes", toSqlText e) = _
      rfl
    · simp only [Bool.not_eq_true] at h
      simp [h]

/-- C6 witness: updating only the description of a concrete stored loot item
(and only the notes of a concrete enemy) touches exactly that column. -/
theorem sparse_update_single_field_witness :
    (lootUpdates ⟨FieldUpd.unset, FieldUpd.unset, FieldUpd.unset,
        FieldUpd.given (some "A shiny sword"), FieldUpd.unset⟩).map Prod.fst =
      ["description"] ∧
    (update_loot_item [⟨1, SqlVal.text "Sword", SqlVal.null, SqlVal.text "Act 1",
        SqlVal.text "old", SqlVal.int 0⟩] 1
      ⟨FieldUpd.unset, FieldUpd.unset, FieldUpd.unset,
        FieldUpd.given (some "A shiny sword"), FieldUpd.unset⟩).1 =
      [⟨1, SqlVal.text "Sword", SqlVal.null, SqlVal.text "Act 1",
        SqlVal.text "old", SqlVal.int 0⟩].map (fun r =>
          if r.id == 1 then { r with description := toSqlText (some "A shiny sword") } else r) ∧
    (enemyUpdates ⟨FieldUpd.unset, FieldUpd.unset, FieldUpd.unset, FieldUpd.unset,
        FieldUpd.unset, FieldUpd.given (some "weak to fire")⟩).map Prod.fst = ["notes"] ∧
    (update_enemy [⟨1, SqlVal.text "Goblin", SqlVal.null, SqlVal.null, SqlVal.null,
        SqlVal.null, SqlVal.null⟩] 1
      ⟨FieldUpd.unset, FieldUpd.unset, FieldUpd.unset, FieldUpd.unset,
        FieldUpd.unset, FieldUpd.given (some "weak to fire")⟩).1 =
      [⟨1, SqlVal.text "Goblin", SqlVal.null, SqlVal.null, SqlVal.null,
        SqlVal.null, SqlVal.null⟩].map (fun r =>
          if r.id == 1 then { r with notes := toSqlText (some "weak to fire") } else r) :=
  sparse_update_single_field _ 1 _ (some "A shiny sword") _ 1 _ (some "weak to fire") rfl rfl

/-- C7: build deletion is idempotent in effect: the first DELETE returns 204,
a Load of the deleted id then fails with 404 Build not found, and a second
DELETE of the same id succeeds with 204 as a no-op on the state. -/
theorem delete_build_idempotent (db : CompanionDB) (build_id : Nat) :
    (delete_build db build_id).2 = 204 ∧
    _load_build (delete_build db build_id).1 build_id =
      Except.error ⟨404, "Build not found"⟩ ∧
    delete_build (delete_build db build_id).1 build_id =
      ((delete_build db build_id).1, 204) := by
  refine ⟨rfl, ?_, ?_⟩
  · rw [_load_build]
    have h : (delete_build db build_id).1.builds.find? (fun r => r.id == build_id) = none :=
      find?_filter_not _ _
    rw [h]
  · simp [delete_build, filter_not_idem]

/-- C8 counterexample: the description containing the whole word evocation
(alongside the earlier-listed keyword abjuration) is not assigned school
Evocation: the first keyword in the fixed table order wins. -/
theorem infer_school_counterexample :
    containsWholeWordCI "abjuration evocation" "evocation" = true ∧
    _infer_spell_school (some "abjuration evocation") = some "Abjuration" ∧
    _infer_spell_school (some "abjuration evocation") ≠ some "Evocation" := by
  refine ⟨by decide, by decide, by decide⟩

/-- C8 (amended): the spell is assigned the canonical school of the first
keyword in the fixed table order (abjuration, conjuration, divination,
enchantment, evocation, illusion, necromancy, transmutation) that occurs in
the description as a whole word in any letter case; in particular a
description whose only recognized keyword is evocation yields Evocation. A
description with no recognized keyword, an empty description and a missing
description yield an absent school. -/
theorem infer_school_first_keyword (d k c : String) (l1 l2 : List (String × String))
    (hsplit : SPELL_SCHOOL_KEYWORDS = l1 ++ (k, c) :: l2)
    (hk : containsWholeWordCI d k = true)
    (hpre : ∀ q ∈ l1, containsWholeWordCI d q.1 = false) :
    _infer_spell_school (some d) = some c ∧
    (∀ d2 : String, (∀ q ∈ SPELL_SCHOOL_KEYWORDS, containsWholeWordCI d2 q.1 = false) →
      _infer_spell_school (some d2) = none) ∧
    _infer_spell_school none = none ∧
    _infer_spell_school (some "") = none := by
  refine ⟨?_, ?_, rfl, rfl⟩
  · have hdne : ¬(d = "") := by
      intro hd
      rw [hd, containsWholeWordCI_empty] at hk
      exact Bool.false_ne_true hk
    rw [_infer_spell_school, if_neg hdne, hsplit, findSchool_append_skip d l1 _ hpre,
      findSchool, if_pos hk]
  · intro d2 hnone
    by_cases hd2 : d2 = ""
    · rw [_infer_spell_school, if_pos hd2]
    · rw [_infer_spell_school, if_neg hd2]
      exact findSchool_none d2 _ hnone

/-- C8 witness: a description whose only recognized keyword is evocation is
assigned Evocation, and a keyword-free description gets no school. -/
theorem infer_school_first_keyword_witness :
    _infer_spell_school (some "A powerful evocation spell.") = some "Evocation" ∧
    (∀ d2 : String, (∀ q ∈ SPELL_SCHOOL_KEYWORDS, containsWholeWordCI d2 q.1 = false) →
      _infer_spell_school (some d2) = none) ∧
    _infer_spell_school none = none ∧
    _infer_spell_school (some "") = none :=
  infer_school_first_keyword "A powerful evocation spell." "evocation" "Evocation"
    [("abjuration", "Abjuration"), ("conjuration", "Conjuration"),
     ("divination", "Divination"), ("enchantment", "Enchantment")]
    [("illusion", "Illusion"), ("necromancy", "Necromancy"),
     ("transmutation", "Transmutation")]
    rfl (by decide) (by decide)

/-- C9: the additive-column schema check for the companion database is
idempotent: a second run on any state produced by a first run is a no-op; it
skips entirely when the build_levels table does not exist and issues the
ALTER TABLE adding the note column exactly when that column is absent. -/
theorem ensure_companion_schema_idempotent :
    (∀ s, _ensure_companion_schema (_ensure_companion_schema s).1 =
      ((_ensure_companion_schema s).1, false)) ∧
    _ensure_companion_schema none = (none, false) ∧
    (∀ cs, "note" ∈ cs → _ensure_companion_schema (some cs) = (some cs, false)) ∧
    (∀ cs, "note" ∉ cs →
      _ensure_companion_schema (some cs) = (some (cs ++ ["note"]), true)) := by
  refine ⟨?_, rfl, ?_, ?_⟩
  · intro s
    match s with
    | none => rfl
    | some cs =>
      by_cases h : "note" ∈ cs
      · simp [_ensure_companion_schema, h]
      · simp [_ensure_companion_schema, h]
  · intro cs h
    simp [_ensure_companion_schema, h]
  · intro cs h
    simp [_ensure_companion_schema, h]

/-- C9 witness: a column set already holding note is left alone, a concrete
pre-migration column set gets exactly the one ALTER adding note, and a second
run on the migrated state is a no-op. -/
theorem ensure_companion_schema_idempotent_witness :
    _ensure_companion_schema (some ["id", "level", "note"]) =
      (some ["id", "level", "note"], false) ∧
    _ensure_companion_schema (some ["id", "level"]) =
      (some (["id", "level"] ++ ["note"]), true) ∧
    _ensure_companion_schema
        (_ensure_companion_schema (some ["id", "level"])).1 =
      ((_ensure_companion_schema (some ["id", "level"])).1, false) :=
  ⟨ensure_companion_schema_idempotent.2.2.1 ["id", "level", "note"] (by decide),
   ensure_companion_schema_idempotent.2.2.2 ["id", "level"] (by decide),
   ensure_companion_schema_idempotent.1 (some ["id", "level"])⟩

/-- C10: deserializing the serialized skill-choice list yields exactly the
normalized list, for every list of strings: the round trip through the stored
text representation loses nothing beyond normalization, and normalization is
idempotent across a store and load cycle. -/
theorem deserialize_serialize_roundtrip (xs : List String) :
    _deserialize_skill_choices (some (_serialize_skill_choices xs)) =
      _normalize_skill_choices xs ∧
    _normalize_skill_choices (_normalize_skill_choices xs) =
      _normalize_skill_choices xs :=
  ⟨deser_ser xs, normalize_idem xs⟩

end BG3
